import Mathlib

/-!
Verification development for NuDB's arena allocator (`detail/arena.hpp`)
and bucket cache (`detail/cache.hpp`).

The arena is modelled by explicit state passing: an element is its
capacity plus its allocation cursor, the used and free singly-linked
lists are Lean lists whose head is the list head pointer, and a returned
"pointer" is the byte offset of the region inside the serving element's
payload (the serving element is always the head of the used list after a
successful allocation).  `BOOST_ASSERT(n != 0)` is modelled as failure
(`none`).  `periodic_activity` is modelled as a function of the computed
rate, per the spec's policy-object formulation; the steady-clock reading
and the floating-point division that produce the rate are abstracted
into that parameter.
-/

namespace NuDB

/-- One arena element: header data of `arena_t<_>::element`.
`capacity` is `capacity_`, `used` is the bump cursor `used_`. -/
structure element where
  capacity : Nat
  used : Nat
deriving Repr, DecidableEq

/-- `element::remain()`: `capacity_ - used_`. -/
def element.remain (e : element) : Nat :=
  e.capacity - e.used

/-- `element::clear()`: reset the cursor. -/
def element.clear (e : element) : element :=
  ⟨e.capacity, 0⟩

/-- `element::alloc(n)`: fail when `n > capacity_ - used_`, else return
the offset `used_` (the region start within the payload) and bump the
cursor by `n`. -/
def element.alloc (e : element) (n : Nat) : Option (Nat × element) :=
  if n > e.capacity - e.used then none
  else some (e.used, ⟨e.capacity, e.used + n⟩)

/-- The arena state: `allocSize_`, `nalloc_`, the used list and the free
list (head of the Lean list = head pointer of the C++ list). -/
structure arena_t where
  allocSize : Nat
  nalloc : Nat
  used : List element
  free : List element
deriving Repr, DecidableEq

/-- A default-constructed arena: all fields zero / null. -/
def arena_t.init : arena_t :=
  ⟨0, 0, [], []⟩

/-- The loop of `arena_t::clear()`: pop each used element, reset its
cursor, push it on the free list when its remaining capacity equals
`allocSize_`, otherwise delete it. -/
def arena_t.clearLoop (allocSize : Nat) : List element → List element → List element
  | [], free => free
  | e :: rest, free =>
    let e' := e.clear
    if e'.remain = allocSize then arena_t.clearLoop allocSize rest (e' :: free)
    else arena_t.clearLoop allocSize rest free

/-- `arena_t::clear()`: drain the used list through `clearLoop`. -/
def arena_t.clear (a : arena_t) : arena_t :=
  ⟨a.allocSize, a.nalloc, [], arena_t.clearLoop a.allocSize a.used a.free⟩

/-- `arena_t::shrink_to_fit()`: delete the free list. -/
def arena_t.shrink_to_fit (a : arena_t) : arena_t :=
  ⟨a.allocSize, a.nalloc, a.used, []⟩

/-- The body of `arena_t::periodic_activity` after a tick of at least one
second, as a function of the computed allocation rate: the 2x / (1/2)x
hysteresis on `allocSize_`, dropping the free list on either adjustment,
and resetting `nalloc_` in every case. -/
def arena_t.periodic_activity (a : arena_t) (rate : Nat) : arena_t :=
  if rate ≥ a.allocSize * 2 then
    ⟨max rate (a.allocSize * 2), 0, a.used, []⟩
  else if rate ≤ a.allocSize / 2 then
    ⟨a.allocSize / 2, 0, a.used, []⟩
  else
    ⟨a.allocSize, 0, a.used, a.free⟩

/-- The rounding in `arena_t::alloc`: `n = 8 * ((n + 7) / 8)`. -/
def roundUp8 (n : Nat) : Nat :=
  8 * ((n + 7) / 8)

/-- Third path of `arena_t::alloc`: create a fresh element of capacity
`max(allocSize_, m)` (where `m` is the already-rounded request), push it
on the used list and serve from it. -/
def arena_t.allocNew (a : arena_t) (m : Nat) : Option (Nat × arena_t) :=
  let size := max a.allocSize m
  (element.alloc ⟨size, 0⟩ m).map fun p =>
    (p.1, ⟨a.allocSize, a.nalloc + m, p.2 :: a.used, a.free⟩)

/-- Second path of `arena_t::alloc`: when the free-list head has enough
remaining capacity, move it to the head of the used list and serve from
it; otherwise fall through to `allocNew`. -/
def arena_t.allocFromFree (a : arena_t) (m : Nat) : Option (Nat × arena_t) :=
  match a.free with
  | f :: fs =>
    if m ≤ f.remain then
      (f.alloc m).map fun p => (p.1, ⟨a.allocSize, a.nalloc + m, p.2 :: a.used, fs⟩)
    else a.allocNew m
  | [] => a.allocNew m

/-- `arena_t::alloc(n)`: reject `n = 0` (`BOOST_ASSERT`), round `n` up to
a multiple of 8, then serve from the used-list head if it has room, else
from the free-list head, else from a fresh element. -/
def arena_t.alloc (a : arena_t) (n : Nat) : Option (Nat × arena_t) :=
  if n = 0 then none
  else
    let m := roundUp8 n
    match a.used with
    | u :: us =>
      if m ≤ u.remain then
        (u.alloc m).map fun p => (p.1, ⟨a.allocSize, a.nalloc + m, p.2 :: us, a.free⟩)
      else a.allocFromFree m
    | [] => a.allocFromFree m

/-- Alignment invariant: every element's cursor, on both lists, is a
multiple of 8. -/
def arena_t.aligned (a : arena_t) : Prop :=
  (∀ e ∈ a.used, e.used % 8 = 0) ∧ (∀ e ∈ a.free, e.used % 8 = 0)

/-- Modelled from the spec: the bucket codec of section 4.2
(`detail/bucket.hpp` is not in the sources).  A bucket is a view holding
a block size, a spill pointer (48-bit data-file offset, 0 = none) and an
entry array of (hash, data-offset, value-size) triples; the entry count
is the length of the array. -/
structure bucket where
  block_size : Nat
  spill : Nat
  entries : List (Nat × Nat × Nat)
deriving Repr, DecidableEq

/-- Modelled from the spec: the serialized contents of a bucket blob as
`bucket::write` lays them out — entry count, spill pointer, entry
array. -/
structure Blob where
  count : Nat
  spill : Nat
  entries : List (Nat × Nat × Nat)
deriving Repr, DecidableEq

/-- Modelled from the spec: `bucket::write(stream)` serializes the entry
count, the spill pointer and the entries. -/
def bucket.write (b : bucket) : Blob :=
  ⟨b.entries.length, b.spill, b.entries⟩

/-- `std::unordered_map::find`, over the association-list model of
`map_`. -/
def mapFind (m : List (Nat × Blob)) (i : Nat) : Option Blob :=
  match m with
  | [] => none
  | (k, v) :: rest => if k = i then some v else mapFind rest i

/-- `std::unordered_map::emplace`: insert only when the key is absent;
when the key is already mapped the map is unchanged. -/
def mapEmplace (m : List (Nat × Blob)) (i : Nat) (v : Blob) : List (Nat × Blob) :=
  match mapFind m i with
  | some _ => m
  | none => (i, v) :: m

/-- The cache state: `key_size_`, `block_size_`, the backing arena and
the map from bucket index to blob contents. -/
structure cache_t where
  key_size : Nat
  block_size : Nat
  arena : arena_t
  map : List (Nat × Blob)
deriving Repr, DecidableEq

/-- `cache_t::size()`: `map_.size()`. -/
def cache_t.size (c : cache_t) : Nat :=
  c.map.length

/-- `cache_t::find(n)`: the mapped blob, or `none` past-the-end. -/
def cache_t.find (c : cache_t) (i : Nat) : Option Blob :=
  mapFind c.map i

/-- `cache_t::clear()`: clear the arena and the map. -/
def cache_t.clear (c : cache_t) : cache_t :=
  ⟨c.key_size, c.block_size, c.arena.clear, []⟩

/-- `cache_t::create(n)`: allocate `block_size_` bytes from the arena,
emplace the blob of an empty bucket (zero entries, zero spill) under
`n`, and return the mutable empty bucket view together with the new
cache state. -/
def cache_t.create (c : cache_t) (i : Nat) : Option (bucket × cache_t) :=
  (c.arena.alloc c.block_size).map fun p =>
    (⟨c.block_size, 0, []⟩,
     ⟨c.key_size, c.block_size, p.2, mapEmplace c.map i ⟨0, 0, []⟩⟩)

/-- `cache_t::insert(n, b)`: allocate `b.block_size()` bytes, serialize
`b` into them (`b.write(os)`), and emplace the blob under `n`. -/
def cache_t.insert (c : cache_t) (i : Nat) (b : bucket) : Option cache_t :=
  (c.arena.alloc b.block_size).map fun p =>
    ⟨c.key_size, c.block_size, p.2, mapEmplace c.map i b.write⟩

/-- A cache operation other than `clear` / `find`. -/
inductive Op where
  | create (i : Nat)
  | insert (i : Nat) (b : bucket)
deriving Repr, DecidableEq

/-- The bucket index an operation targets. -/
def Op.index : Op → Nat
  | .create i => i
  | .insert i _ => i

/-- Apply one operation to a cache. -/
def cache_t.applyOp (c : cache_t) : Op → Option cache_t
  | .create i => (c.create i).map Prod.snd
  | .insert i b => c.insert i b

/-- Run a sequence of operations on a cache. -/
def cache_t.runOps (c : cache_t) : List Op → Option cache_t
  | [] => some c
  | op :: ops =>
    match c.applyOp op with
    | some c' => c'.runOps ops
    | none => none

/-! ### Helper lemmas about the arena -/

theorem le_roundUp8 (n : Nat) : n ≤ roundUp8 n := by
  unfold roundUp8; omega

theorem roundUp8_mod8 (n : Nat) : roundUp8 n % 8 = 0 := by
  unfold roundUp8; omega

theorem element.alloc_eq_of_le {e : element} {n : Nat} (h : n ≤ e.remain) :
    e.alloc n = some (e.used, ⟨e.capacity, e.used + n⟩) := by
  unfold element.alloc
  rw [if_neg]
  unfold element.remain at h
  omega

theorem arena_t.allocNew_eq (a : arena_t) (m : Nat) :
    a.allocNew m = some (0,
      ⟨a.allocSize, a.nalloc + m, element.mk (max a.allocSize m) m :: a.used, a.free⟩) := by
  have h : m ≤ (element.mk (max a.allocSize m) 0).remain := by
    have hle := Nat.le_max_right a.allocSize m
    simp only [element.remain]
    omega
  unfold arena_t.allocNew
  dsimp only
  rw [element.alloc_eq_of_le h]
  simp

theorem arena_t.alloc_isSome (a : arena_t) {n : Nat} (hn : n ≠ 0) :
    (a.alloc n).isSome := by
  obtain ⟨asz, nal, us, fr⟩ := a
  unfold arena_t.alloc
  rw [if_neg hn]
  have hfree : ∀ m, (arena_t.allocFromFree ⟨asz, nal, us, fr⟩ m).isSome := by
    intro m
    unfold arena_t.allocFromFree
    cases fr with
    | nil => rw [arena_t.allocNew_eq]; rfl
    | cons f fs =>
      dsimp only
      by_cases hf : m ≤ f.remain
      · rw [if_pos hf, element.alloc_eq_of_le hf]; rfl
      · rw [if_neg hf, arena_t.allocNew_eq]; rfl
  cases us with
  | nil => exact hfree _
  | cons u tl =>
    dsimp only
    by_cases hu : roundUp8 n ≤ u.remain
    · rw [if_pos hu, element.alloc_eq_of_le hu]; rfl
    · rw [if_neg hu]; exact hfree _

theorem arena_t.allocFromFree_spec (a : arena_t) (m off : Nat) (a' : arena_t)
    (h : a.allocFromFree m = some (off, a')) :
    (∃ f fs, a.free = f :: fs ∧ m ≤ f.remain ∧ off = f.used ∧
       a' = ⟨a.allocSize, a.nalloc + m, element.mk f.capacity (f.used + m) :: a.used, fs⟩) ∨
    ((∀ f ∈ a.free.head?, f.remain < m) ∧ off = 0 ∧
       a' = ⟨a.allocSize, a.nalloc + m,
         element.mk (max a.allocSize m) m :: a.used, a.free⟩) := by
  obtain ⟨asz, nal, us, fr⟩ := a
  unfold arena_t.allocFromFree at h
  cases fr with
  | nil =>
    rw [arena_t.allocNew_eq] at h
    simp only [Option.some.injEq, Prod.mk.injEq] at h
    right
    simp [← h.1, ← h.2]
  | cons f fs =>
    dsimp only at h
    by_cases hf : m ≤ f.remain
    · rw [if_pos hf, element.alloc_eq_of_le hf] at h
      simp only [Option.map_some', Option.some.injEq, Prod.mk.injEq] at h
      left
      exact ⟨f, fs, rfl, hf, h.1.symm, h.2.symm⟩
    · rw [if_neg hf, arena_t.allocNew_eq] at h
      simp only [Option.some.injEq, Prod.mk.injEq] at h
      right
      refine ⟨?_, h.1.symm, h.2.symm⟩
      intro x hx
      simp only [List.head?_cons, Option.mem_def, Option.some.injEq] at hx
      subst hx
      omega

theorem arena_t.alloc_spec (a : arena_t) (n off : Nat) (a' : arena_t)
    (h : a.alloc n = some (off, a')) :
    n ≠ 0 ∧
    ((∃ u tl, a.used = u :: tl ∧ roundUp8 n ≤ u.remain ∧ off = u.used ∧
        a' = ⟨a.allocSize, a.nalloc + roundUp8 n,
          element.mk u.capacity (u.used + roundUp8 n) :: tl, a.free⟩) ∨
     ((∀ u ∈ a.used.head?, u.remain < roundUp8 n) ∧
      ∃ f fs, a.free = f :: fs ∧ roundUp8 n ≤ f.remain ∧ off = f.used ∧
        a' = ⟨a.allocSize, a.nalloc + roundUp8 n,
          element.mk f.capacity (f.used + roundUp8 n) :: a.used, fs⟩) ∨
     ((∀ u ∈ a.used.head?, u.remain < roundUp8 n) ∧
      (∀ f ∈ a.free.head?, f.remain < roundUp8 n) ∧ off = 0 ∧
        a' = ⟨a.allocSize, a.nalloc + roundUp8 n,
          element.mk (max a.allocSize (roundUp8 n)) (roundUp8 n) :: a.used, a.free⟩)) := by
  have hn : n ≠ 0 := by
    intro h0
    subst h0
    simp [arena_t.alloc] at h
  refine ⟨hn, ?_⟩
  obtain ⟨asz, nal, us, fr⟩ := a
  unfold arena_t.alloc at h
  rw [if_neg hn] at h
  cases us with
  | nil =>
    rcases arena_t.allocFromFree_spec _ _ _ _ h with h2 | h2
    · right; left
      exact ⟨by simp, h2⟩
    · right; right
      exact ⟨by simp, h2.1, h2.2.1, h2.2.2⟩
  | cons u tl =>
    dsimp only at h
    by_cases hu : roundUp8 n ≤ u.remain
    · rw [if_pos hu, element.alloc_eq_of_le hu] at h
      simp only [Option.map_some', Option.some.injEq, Prod.mk.injEq] at h
      left
      exact ⟨u, tl, rfl, hu, h.1.symm, h.2.symm⟩
    · rw [if_neg hu] at h
      have hhead : ∀ x ∈ (List.head? (u :: tl)), element.remain x < roundUp8 n := by
        intro x hx
        simp only [List.head?_cons, Option.mem_def, Option.some.injEq] at hx
        subst hx
        omega
      rcases arena_t.allocFromFree_spec _ _ _ _ h with h2 | h2
      · right; left
        exact ⟨hhead, h2⟩
      · right; right
        exact ⟨hhead, h2.1, h2.2.1, h2.2.2⟩

/-! ### Claim theorems about the arena -/

/-- Claim C2: at a periodic tick, with the computed rate: if
`rate ≥ 2·allocSize` the size is raised to `max rate (2·allocSize)`
(which equals `rate` under that hypothesis) and the free list is
dropped; if `rate ≤ allocSize / 2` the size is halved and the free list
is dropped; otherwise size and free list are unchanged; in every case
the byte counter `nalloc` is reset to zero and the used list is
untouched. -/
theorem nudb_C2_periodic_hysteresis (a : arena_t) (rate : Nat) :
    (a.periodic_activity rate).nalloc = 0 ∧
    (a.periodic_activity rate).used = a.used ∧
    (rate ≥ a.allocSize * 2 →
      a.periodic_activity rate = ⟨max rate (a.allocSize * 2), 0, a.used, []⟩ ∧
      max rate (a.allocSize * 2) = rate) ∧
    (rate ≤ a.allocSize / 2 →
      a.periodic_activity rate = ⟨a.allocSize / 2, 0, a.used, []⟩) ∧
    (a.allocSize / 2 < rate → rate < a.allocSize * 2 →
      a.periodic_activity rate = ⟨a.allocSize, 0, a.used, a.free⟩) := by
  unfold arena_t.periodic_activity
  by_cases h1 : rate ≥ a.allocSize * 2
  · rw [if_pos h1]
    refine ⟨rfl, rfl, fun _ => ⟨rfl, Nat.max_eq_left h1⟩, fun h2 => ?_, fun h2 h3 => ?_⟩
    · have hs : a.allocSize = 0 := by omega
      have hr : rate = 0 := by omega
      rw [hs, hr]
      simp
    · omega
  · rw [if_neg h1]
    by_cases h2 : rate ≤ a.allocSize / 2
    · rw [if_pos h2]
      exact ⟨rfl, rfl, fun h => absurd h h1, fun _ => rfl, fun h3 _ => by omega⟩
    · rw [if_neg h2]
      exact ⟨rfl, rfl, fun h => absurd h h1, fun h => absurd h h2, fun _ _ => rfl⟩

/-- Witness for C2: the three branches at concrete states — rate 10
against size 4 (adjust up to the rate), rate 5 against size 16 (halve),
rate 12 against size 16 (keep size and free list). -/
theorem nudb_C2_witness :
    (arena_t.mk 4 7 [] [⟨4, 0⟩]).periodic_activity 10 = ⟨10, 0, [], []⟩ ∧
    (arena_t.mk 16 7 [] [⟨16, 0⟩]).periodic_activity 5 = ⟨8, 0, [], []⟩ ∧
    (arena_t.mk 16 7 [] [⟨16, 0⟩]).periodic_activity 12 = ⟨16, 0, [], [⟨16, 0⟩]⟩ := by
  refine ⟨?_, ?_, ?_⟩
  · have h := ((nudb_C2_periodic_hysteresis ⟨4, 7, [], [⟨4, 0⟩]⟩ 10).2.2.1 (by decide))
    rw [h.1, h.2]
  · exact (nudb_C2_periodic_hysteresis ⟨16, 7, [], [⟨16, 0⟩]⟩ 5).2.2.2.1 (by decide)
  · exact (nudb_C2_periodic_hysteresis ⟨16, 7, [], [⟨16, 0⟩]⟩ 12).2.2.2.2
      (by decide) (by decide)

/-- Claim C7: `alloc(0)` is rejected in every arena state
(`BOOST_ASSERT(n != 0)`): no usable region is returned. -/
theorem nudb_C7_alloc_zero_rejected (a : arena_t) : a.alloc 0 = none :=
  rfl

/-- Claim C9: for every `n > 0`, `alloc(n)` succeeds — on all three
paths the serving element's remaining capacity is checked (or
constructed) to cover the rounded request before `element::alloc` runs,
so the `nullptr` branch is unreachable. -/
theorem nudb_C9_alloc_not_null (a : arena_t) (n : Nat) (hn : n ≠ 0) :
    (a.alloc n).isSome :=
  arena_t.alloc_isSome a hn

/-- Witness for C9 at the default-constructed arena and `n = 5`. -/
theorem nudb_C9_witness : (arena_t.init.alloc 5).isSome :=
  nudb_C9_alloc_not_null arena_t.init 5 (by decide)

/-- Counterexample to C4 as stated: from the default-constructed arena
(`allocSize_ = 0`, both lists empty), `alloc(1)` cannot be served from
the used element or the free list, and the freshly created element has
payload capacity 8 — the request is rounded up to a multiple of 8
before `max` is taken — whereas `max(alloc_size, n) = max 0 1 = 1`. -/
theorem nudb_C4_counterexample :
    arena_t.init.alloc 1 = some (0, ⟨0, 8, [element.mk 8 8], []⟩) ∧
    (element.mk 8 8).capacity ≠ max arena_t.init.allocSize 1 := by
  decide

/-- Claim C4 (amended): when the request — after rounding up to a
multiple of 8 — fits neither in the current used element nor in any
free-list element, `alloc` creates exactly one new element whose payload
capacity is `max(alloc_size, roundUp8 n)`; it becomes the head of the
used list, serves the allocation at offset 0, and the free list is
untouched. -/
theorem nudb_C4_alloc_new_element (a : arena_t) (n : Nat) (hn : n ≠ 0)
    (hu : ∀ u ∈ a.used.head?, u.remain < roundUp8 n)
    (hf : ∀ f ∈ a.free, f.remain < roundUp8 n) :
    a.alloc n = some (0, ⟨a.allocSize, a.nalloc + roundUp8 n,
      element.mk (max a.allocSize (roundUp8 n)) (roundUp8 n) :: a.used, a.free⟩) := by
  obtain ⟨off, a', h⟩ : ∃ off a', a.alloc n = some (off, a') := by
    have hs := arena_t.alloc_isSome a hn
    rcases hh : a.alloc n with _ | ⟨off, a'⟩
    · rw [hh] at hs
      exact absurd hs (by simp)
    · exact ⟨off, a', rfl⟩
  rcases (arena_t.alloc_spec a n off a' h).2 with h1 | h2 | h3
  · obtain ⟨u, tl, hus, hrem, -, -⟩ := h1
    have := hu u (by rw [hus]; rfl)
    omega
  · obtain ⟨-, f, fs, hfr, hrem, -, -⟩ := h2
    have := hf f (by rw [hfr]; exact List.mem_cons_self f fs)
    omega
  · rw [h, h3.2.2.1, h3.2.2.2]

/-- Witness for the amended C4: arena with `allocSize_ = 4`, a full used
head and a too-small free element; `alloc 1` makes a fresh element of
capacity `max 4 8 = 8`. -/
theorem nudb_C4_witness :
    (arena_t.mk 4 0 [⟨4, 4⟩] [⟨6, 0⟩]).alloc 1 =
      some (0, ⟨4, 8, [⟨8, 8⟩, ⟨4, 4⟩], [⟨6, 0⟩]⟩) := by
  have h := nudb_C4_alloc_new_element ⟨4, 0, [⟨4, 4⟩], [⟨6, 0⟩]⟩ 1
    (by decide) (by decide) (by decide)
  rw [h]
  rfl

/-- Claim C6: for an arena whose element cursors are all 8-aligned,
every successful `alloc(n)` returns an 8-aligned offset into the serving
element (the new head of the used list), the region covers at least `n`
bytes within that element's payload (the rounded request is a multiple
of 8 and at least `n`), and all cursors remain 8-aligned. -/
theorem nudb_C6_alloc_alignment (a : arena_t) (n off : Nat) (a' : arena_t)
    (ha : a.aligned) (h : a.alloc n = some (off, a')) :
    off % 8 = 0 ∧ roundUp8 n % 8 = 0 ∧ n ≤ roundUp8 n ∧ a'.aligned ∧
      ∃ e tl, a'.used = e :: tl ∧ off + n ≤ e.capacity ∧
        e.used = off + roundUp8 n := by
  obtain ⟨hau, haf⟩ := ha
  have hmod := roundUp8_mod8 n
  have hle := le_roundUp8 n
  obtain ⟨hn, hsp⟩ := arena_t.alloc_spec a n off a' h
  have hpos : 0 < n := Nat.pos_of_ne_zero hn
  rcases hsp with h1 | h2 | h3
  · obtain ⟨u, tl, hus, hrem, hoff, ha'⟩ := h1
    have hu8 : u.used % 8 = 0 := hau u (by rw [hus]; exact List.mem_cons_self u tl)
    have hrem' : u.used + roundUp8 n ≤ u.capacity := by
      unfold element.remain at hrem; omega
    subst hoff ha'
    refine ⟨hu8, hmod, hle, ⟨?_, ?_⟩, ⟨u.capacity, u.used + roundUp8 n⟩, tl, rfl, ?_, rfl⟩
    · intro e he
      rcases List.mem_cons.mp he with rfl | he'
      · show (u.used + roundUp8 n) % 8 = 0
        omega
      · exact hau e (by rw [hus]; exact List.mem_cons_of_mem u he')
    · exact haf
    · show u.used + n ≤ u.capacity
      omega
  · obtain ⟨-, f, fs, hfr, hrem, hoff, ha'⟩ := h2
    have hf8 : f.used % 8 = 0 := haf f (by rw [hfr]; exact List.mem_cons_self f fs)
    have hrem' : f.used + roundUp8 n ≤ f.capacity := by
      unfold element.remain at hrem; omega
    subst hoff ha'
    refine ⟨hf8, hmod, hle, ⟨?_, ?_⟩, ⟨f.capacity, f.used + roundUp8 n⟩, a.used, rfl, ?_, rfl⟩
    · intro e he
      rcases List.mem_cons.mp he with rfl | he'
      · show (f.used + roundUp8 n) % 8 = 0
        omega
      · exact hau e he'
    · intro e he
      exact haf e (by rw [hfr]; exact List.mem_cons_of_mem f he)
    · show f.used + n ≤ f.capacity
      omega
  · obtain ⟨-, -, hoff, ha'⟩ := h3
    have hcap : roundUp8 n ≤ max a.allocSize (roundUp8 n) := Nat.le_max_right _ _
    subst hoff ha'
    refine ⟨by omega, hmod, hle, ⟨?_, haf⟩,
      ⟨max a.allocSize (roundUp8 n), roundUp8 n⟩, a.used, rfl, ?_, ?_⟩
    · intro e he
      rcases List.mem_cons.mp he with rfl | he'
      · show (roundUp8 n) % 8 = 0
        omega
      · exact hau e he'
    · show 0 + n ≤ max a.allocSize (roundUp8 n)
      omega
    · show roundUp8 n = 0 + roundUp8 n
      omega

/-- Witness for C6: allocating 3 bytes from the default arena yields
offset 0 in a fresh 8-byte element, and the result stays aligned. -/
theorem nudb_C6_witness :
    (0 : Nat) % 8 = 0 ∧ roundUp8 3 % 8 = 0 ∧ 3 ≤ roundUp8 3 ∧
    (arena_t.mk 0 8 [⟨8, 8⟩] []).aligned :=
  have h := nudb_C6_alloc_alignment arena_t.init 3 0 ⟨0, 8, [⟨8, 8⟩], []⟩
    (by constructor <;> simp [arena_t.init]) (by decide)
  ⟨h.1, h.2.1, h.2.2.1, h.2.2.2.1⟩

theorem arena_t.mem_clearLoop (asz : Nat) (us fr : List element) (x : element) :
    x ∈ arena_t.clearLoop asz us fr ↔
      x ∈ fr ∨ ∃ e ∈ us, x = e.clear ∧ e.capacity = asz := by
  induction us generalizing fr with
  | nil => simp [arena_t.clearLoop]
  | cons e rest ih =>
    have hcond : (e.clear.remain = asz) = (e.capacity = asz) := by
      simp [element.clear, element.remain]
    simp only [arena_t.clearLoop]
    by_cases hc : e.capacity = asz
    · rw [if_pos (by rw [hcond]; exact hc), ih]
      constructor
      · rintro (hx | he)
        · rcases List.mem_cons.mp hx with rfl | hx'
          · exact Or.inr ⟨e, List.mem_cons_self e rest, rfl, hc⟩
          · exact Or.inl hx'
        · obtain ⟨e', he', hx', hc'⟩ := he
          exact Or.inr ⟨e', List.mem_cons_of_mem e he', hx', hc'⟩
      · rintro (hx | he)
        · exact Or.inl (List.mem_cons_of_mem _ hx)
        · obtain ⟨e', he', hx', hc'⟩ := he
          rcases List.mem_cons.mp he' with rfl | he''
          · exact Or.inl (by rw [hx']; exact List.mem_cons_self _ _)
          · exact Or.inr ⟨e', he'', hx', hc'⟩
    · rw [if_neg (by rw [hcond]; exact hc), ih]
      constructor
      · rintro (hx | he)
        · exact Or.inl hx
        · obtain ⟨e', he', hx', hc'⟩ := he
          exact Or.inr ⟨e', List.mem_cons_of_mem e he', hx', hc'⟩
      · rintro (hx | he)
        · exact Or.inl hx
        · obtain ⟨e', he', hx', hc'⟩ := he
          rcases List.mem_cons.mp he' with rfl | he''
          · exact absurd hc' hc
          · exact Or.inr ⟨e', he'', hx', hc'⟩

/-- Counterexample to C3 as stated: the arena produced by `alloc 8` from
the default-constructed arena has one element on its used list, yet
after `clear()` the free list is empty — the element's capacity (8)
differs from `allocSize_` (0), so `clear()` deletes it instead of
returning it for reuse. -/
theorem nudb_C3_counterexample :
    arena_t.init.alloc 8 = some (0, ⟨0, 8, [⟨8, 8⟩], []⟩) ∧
    (arena_t.mk 0 8 [⟨8, 8⟩] []).used ≠ [] ∧
    (arena_t.mk 0 8 [⟨8, 8⟩] []).clear.free = [] := by
  decide

/-- Claim C3 (amended): `clear()` empties the used list without touching
`allocSize_` or the byte counter; every used element whose capacity
equals `allocSize_` is cursor-reset and returned to the free list, the
previous free list is preserved, and everything on the new free list is
either an old free element or a reset used element of capacity
`allocSize_` — used elements of any other capacity are released to the
system. -/
theorem nudb_C3_clear_recycles (a : arena_t) :
    (a.clear).used = [] ∧
    (a.clear).allocSize = a.allocSize ∧
    (a.clear).nalloc = a.nalloc ∧
    (∀ e ∈ a.used, e.capacity = a.allocSize → e.clear ∈ (a.clear).free) ∧
    (∀ x ∈ a.free, x ∈ (a.clear).free) ∧
    (∀ x ∈ (a.clear).free,
      x ∈ a.free ∨ ∃ e ∈ a.used, x = e.clear ∧ e.capacity = a.allocSize) := by
  refine ⟨rfl, rfl, rfl, ?_, ?_, ?_⟩
  · intro e he hc
    exact (arena_t.mem_clearLoop a.allocSize a.used a.free e.clear).mpr
      (Or.inr ⟨e, he, rfl, hc⟩)
  · intro x hx
    exact (arena_t.mem_clearLoop a.allocSize a.used a.free x).mpr (Or.inl hx)
  · intro x hx
    exact (arena_t.mem_clearLoop a.allocSize a.used a.free x).mp hx

/-- Witness for the amended C3: an arena with `allocSize_ = 8`, one
exactly-sized used element (cursor 3) and one free element; after
`clear()` the used element is reset and recycled onto the free list. -/
theorem nudb_C3_witness :
    element.mk 8 0 ∈ ((arena_t.mk 8 5 [⟨8, 3⟩] [⟨8, 0⟩]).clear).free ∧
    ((arena_t.mk 8 5 [⟨8, 3⟩] [⟨8, 0⟩]).clear).used = [] := by
  have h := nudb_C3_clear_recycles ⟨8, 5, [⟨8, 3⟩], [⟨8, 0⟩]⟩
  exact ⟨h.2.2.2.1 ⟨8, 3⟩ (List.mem_cons_self _ _) rfl, h.1⟩

/-! ### Helper lemmas about the cache map -/

theorem mapFind_emplace_self (m : List (Nat × Blob)) (i : Nat) (v : Blob)
    (h : mapFind m i = none) : mapFind (mapEmplace m i v) i = some v := by
  unfold mapEmplace
  rw [h]
  unfold mapFind
  rw [if_pos rfl]

theorem mapEmplace_of_present (m : List (Nat × Blob)) (i : Nat) (v w : Blob)
    (h : mapFind m i = some w) : mapEmplace m i v = m := by
  unfold mapEmplace
  rw [h]

theorem mapFind_emplace_ne (m : List (Nat × Blob)) (i j : Nat) (v : Blob)
    (h : j ≠ i) : mapFind (mapEmplace m i v) j = mapFind m j := by
  unfold mapEmplace
  cases hm : mapFind m i with
  | some w => rfl
  | none =>
    show (if i = j then some v else mapFind m j) = mapFind m j
    rw [if_neg (fun he => h he.symm)]

theorem mapFind_emplace_isSome (m : List (Nat × Blob)) (i j : Nat) (v : Blob) :
    (mapFind (mapEmplace m i v) j).isSome ↔ (mapFind m j).isSome ∨ j = i := by
  by_cases hj : j = i
  · subst hj
    cases hm : mapFind m j with
    | some w =>
      rw [mapEmplace_of_present m j v w hm, hm]
      simp
    | none =>
      rw [mapFind_emplace_self m j v hm]
      simp
  · rw [mapFind_emplace_ne m i j v hj]
    simp [hj]

theorem mapEmplace_length (m : List (Nat × Blob)) (i : Nat) (v : Blob)
    (h : mapFind m i = none) : (mapEmplace m i v).length = m.length + 1 := by
  unfold mapEmplace
  rw [h]
  rfl

theorem arena_t.alloc_nalloc (a : arena_t) (n off : Nat) (a' : arena_t)
    (h : a.alloc n = some (off, a')) : a'.nalloc = a.nalloc + roundUp8 n := by
  rcases (arena_t.alloc_spec a n off a' h).2 with h1 | h2 | h3
  · obtain ⟨u, tl, -, -, -, ha'⟩ := h1
    rw [ha']
  · obtain ⟨-, f, fs, -, -, -, ha'⟩ := h2
    rw [ha']
  · rw [h3.2.2.2]

/-- Effect of one cache operation on its target and on the map keys:
after a successful `create i` or `insert i b`, index `j` is mapped iff
it was mapped before or `j` is the operation's index. -/
theorem cache_t.applyOp_find_isSome (c c' : cache_t) (op : Op)
    (h : c.applyOp op = some c') (j : Nat) :
    (c'.find j).isSome ↔ (c.find j).isSome ∨ j = op.index := by
  cases op with
  | create i =>
    simp only [cache_t.applyOp, cache_t.create] at h
    cases ha : c.arena.alloc c.block_size with
    | none =>
      rw [ha] at h
      exact absurd h (by simp)
    | some p =>
      rw [ha] at h
      simp only [Option.map_map, Option.map_some', Option.some.injEq] at h
      subst h
      exact mapFind_emplace_isSome c.map i j _
  | insert i b =>
    simp only [cache_t.applyOp, cache_t.insert] at h
    cases ha : c.arena.alloc b.block_size with
    | none =>
      rw [ha] at h
      exact absurd h (by simp)
    | some p =>
      rw [ha] at h
      simp only [Option.map_some', Option.some.injEq] at h
      subst h
      exact mapFind_emplace_isSome c.map i j _

/-- A cache operation leaves every other index's mapping unchanged. -/
theorem cache_t.applyOp_find_ne (c c' : cache_t) (op : Op)
    (h : c.applyOp op = some c') (j : Nat) (hj : j ≠ op.index) :
    c'.find j = c.find j := by
  cases op with
  | create i =>
    simp only [cache_t.applyOp, cache_t.create] at h
    cases ha : c.arena.alloc c.block_size with
    | none =>
      rw [ha] at h
      exact absurd h (by simp)
    | some p =>
      rw [ha] at h
      simp only [Option.map_map, Option.map_some', Option.some.injEq] at h
      subst h
      exact mapFind_emplace_ne c.map i j _ hj
  | insert i b =>
    simp only [cache_t.applyOp, cache_t.insert] at h
    cases ha : c.arena.alloc b.block_size with
    | none =>
      rw [ha] at h
      exact absurd h (by simp)
    | some p =>
      rw [ha] at h
      simp only [Option.map_some', Option.some.injEq] at h
      subst h
      exact mapFind_emplace_ne c.map i j _ hj

theorem cache_t.runOps_find_iff (c : cache_t) (ops : List Op) (c' : cache_t)
    (h : c.runOps ops = some c') (j : Nat) :
    ((c'.find j).isSome ↔ (c.find j).isSome ∨ j ∈ ops.map Op.index) := by
  induction ops generalizing c with
  | nil =>
    unfold cache_t.runOps at h
    simp only [Option.some.injEq] at h
    subst h
    simp
  | cons op rest ih =>
    unfold cache_t.runOps at h
    cases hap : c.applyOp op with
    | none =>
      rw [hap] at h
      exact absurd h (by simp)
    | some c1 =>
      rw [hap] at h
      rw [ih c1 h, cache_t.applyOp_find_isSome c c1 op hap j]
      simp only [List.map_cons, List.mem_cons]
      tauto

/-! ### Claim theorems about the cache -/

/-- Claim C1: inserting a bucket under a fresh index makes `find` return
a view whose serialized contents (entry count, spill pointer, entry
array) are those of the argument bucket; and an index never created or
inserted since the last `clear()` is not found. -/
theorem nudb_C1_insert_then_find :
    (∀ (c : cache_t) (i : Nat) (b : bucket) (c' : cache_t),
      c.find i = none → c.insert i b = some c' →
      c'.find i = some ⟨b.entries.length, b.spill, b.entries⟩) ∧
    (∀ (c : cache_t) (ops : List Op) (c' : cache_t) (i : Nat),
      (c.clear).runOps ops = some c' → i ∉ ops.map Op.index →
      c'.find i = none) := by
  constructor
  · intro c i b c' hi h
    simp only [cache_t.insert] at h
    cases ha : c.arena.alloc b.block_size with
    | none =>
      rw [ha] at h
      exact absurd h (by simp)
    | some p =>
      rw [ha] at h
      simp only [Option.map_some', Option.some.injEq] at h
      subst h
      exact mapFind_emplace_self c.map i b.write hi
  · intro c ops c' i h hi
    have hiff := cache_t.runOps_find_iff (c.clear) ops c' h i
    have hclear : (c.clear).find i = none := rfl
    rw [hclear] at hiff
    simp only [Option.isSome_none, Bool.false_eq_true, false_or] at hiff
    rcases hfind : c'.find i with _ | w
    · rfl
    · rw [hfind] at hiff
      exact absurd (hiff.mp (by rfl)) hi

/-- Witness for C1: inserting a one-entry bucket with spill 5 into an
empty cache, then finding it; and, after clearing and creating only
index 2, index 7 is not found. -/
theorem nudb_C1_witness :
    (cache_t.mk 4 64 ⟨0, 64, [⟨64, 64⟩], []⟩
        [(1, ⟨1, 5, [(10, 2, 3)]⟩)]).find 1 = some ⟨1, 5, [(10, 2, 3)]⟩ ∧
    (cache_t.mk 4 64 ⟨0, 64, [⟨64, 64⟩], []⟩ [(2, ⟨0, 0, []⟩)]).find 7 = none := by
  constructor
  · exact nudb_C1_insert_then_find.1 ⟨4, 64, arena_t.init, []⟩ 1 ⟨64, 5, [(10, 2, 3)]⟩
      ⟨4, 64, ⟨0, 64, [⟨64, 64⟩], []⟩, [(1, ⟨1, 5, [(10, 2, 3)]⟩)]⟩ (by decide) (by decide)
  · exact nudb_C1_insert_then_find.2 ⟨4, 64, arena_t.init, []⟩ [Op.create 2]
      ⟨4, 64, ⟨0, 64, [⟨64, 64⟩], []⟩, [(2, ⟨0, 0, []⟩)]⟩ 7 (by decide) (by decide)

/-- Claim C5: creating a fresh index succeeds (for a nonzero block
size), returns the empty bucket view over `block_size` bytes (zero
entries, zero spill — its serialized form is the zero blob), maps the
index to that empty blob, grows the map by one, and bumps the arena's
byte counter by the rounded block size. -/
theorem nudb_C5_create_empty (c : cache_t) (i : Nat)
    (hb : c.block_size ≠ 0) (hi : c.find i = none) :
    (c.create i).isSome ∧
    ∀ (bkt : bucket) (c' : cache_t), c.create i = some (bkt, c') →
      bkt = ⟨c.block_size, 0, []⟩ ∧
      bkt.write = ⟨0, 0, []⟩ ∧
      c'.find i = some ⟨0, 0, []⟩ ∧
      c'.size = c.size + 1 ∧
      c'.arena.nalloc = c.arena.nalloc + roundUp8 c.block_size := by
  constructor
  · have hs := arena_t.alloc_isSome c.arena hb
    simp only [cache_t.create]
    rcases ha : c.arena.alloc c.block_size with _ | p
    · rw [ha] at hs
      exact absurd hs (by simp)
    · rfl
  · intro bkt c' h
    simp only [cache_t.create] at h
    rcases ha : c.arena.alloc c.block_size with _ | ⟨off, a'⟩
    · rw [ha] at h
      exact absurd h (by simp)
    · rw [ha] at h
      simp only [Option.map_some', Option.some.injEq, Prod.mk.injEq] at h
      obtain ⟨hb1, hc'⟩ := h
      subst hc'
      refine ⟨hb1.symm, by rw [← hb1]; rfl, ?_, ?_, ?_⟩
      · exact mapFind_emplace_self c.map i ⟨0, 0, []⟩ hi
      · exact mapEmplace_length c.map i ⟨0, 0, []⟩ hi
      · exact arena_t.alloc_nalloc c.arena c.block_size off a' ha

/-- Witness for C5: creating index 3 in an empty cache with block size
64. -/
theorem nudb_C5_witness :
    ((cache_t.mk 4 64 arena_t.init []).create 3).isSome ∧
    (cache_t.mk 4 64 ⟨0, 64, [⟨64, 64⟩], []⟩ [(3, ⟨0, 0, []⟩)]).find 3 =
      some ⟨0, 0, []⟩ ∧
    (cache_t.mk 4 64 ⟨0, 64, [⟨64, 64⟩], []⟩ [(3, ⟨0, 0, []⟩)]).size =
      (cache_t.mk 4 64 arena_t.init []).size + 1 := by
  have h := nudb_C5_create_empty ⟨4, 64, arena_t.init, []⟩ 3 (by decide) (by decide)
  have h2 := h.2 ⟨64, 0, []⟩ ⟨4, 64, ⟨0, 64, [⟨64, 64⟩], []⟩, [(3, ⟨0, 0, []⟩)]⟩ (by decide)
  exact ⟨h.1, h2.2.2.1, h2.2.2.2.1⟩

/-- Claim C8: the cache never evicts — `clear()` leaves an empty map
(size 0, every lookup misses); a run of create/insert operations never
unmaps an index; and starting from a cleared cache, the mapped indices
are exactly the indices passed to create or insert. -/
theorem nudb_C8_no_eviction :
    (∀ (c : cache_t) (i : Nat),
      (c.clear).size = 0 ∧ (c.clear).map = [] ∧ (c.clear).find i = none) ∧
    (∀ (c : cache_t) (ops : List Op) (c' : cache_t) (i : Nat),
      c.runOps ops = some c' → (c.find i).isSome → (c'.find i).isSome) ∧
    (∀ (c : cache_t) (ops : List Op) (c' : cache_t) (i : Nat),
      (c.clear).runOps ops = some c' →
      ((c'.find i).isSome ↔ i ∈ ops.map Op.index)) := by
  refine ⟨fun c i => ⟨rfl, rfl, rfl⟩, ?_, ?_⟩
  · intro c ops c' i h hi
    exact (cache_t.runOps_find_iff c ops c' h i).mpr (Or.inl hi)
  · intro c ops c' i h
    have hiff := cache_t.runOps_find_iff (c.clear) ops c' h i
    have hclear : (c.clear).find i = none := rfl
    rw [hclear] at hiff
    simpa using hiff

/-- Witness for C8: after clearing an empty cache and creating index 2
then inserting under index 9, exactly those two indices are mapped. -/
theorem nudb_C8_witness :
    ((cache_t.mk 4 64 ⟨0, 128, [⟨64, 64⟩, ⟨64, 64⟩], []⟩
        [(9, ⟨0, 7, []⟩), (2, ⟨0, 0, []⟩)] : cache_t).find 2).isSome ∧
    ((cache_t.mk 4 64 ⟨0, 128, [⟨64, 64⟩, ⟨64, 64⟩], []⟩
        [(9, ⟨0, 7, []⟩), (2, ⟨0, 0, []⟩)] : cache_t).find 5).isSome = false := by
  have hiff2 := nudb_C8_no_eviction.2.2 ⟨4, 64, arena_t.init, []⟩
    [Op.create 2, Op.insert 9 ⟨64, 7, []⟩]
    ⟨4, 64, ⟨0, 128, [⟨64, 64⟩, ⟨64, 64⟩], []⟩,
      [(9, ⟨0, 7, []⟩), (2, ⟨0, 0, []⟩)]⟩ 2 (by decide)
  have hiff5 := nudb_C8_no_eviction.2.2 ⟨4, 64, arena_t.init, []⟩
    [Op.create 2, Op.insert 9 ⟨64, 7, []⟩]
    ⟨4, 64, ⟨0, 128, [⟨64, 64⟩, ⟨64, 64⟩], []⟩,
      [(9, ⟨0, 7, []⟩), (2, ⟨0, 0, []⟩)]⟩ 5 (by decide)
  refine ⟨hiff2.mpr (by decide), ?_⟩
  by_contra hmem
  simp only [Bool.not_eq_false] at hmem
  exact absurd (hiff5.mp hmem) (by decide)

/-- Claim C10: inserting under an index that is already mapped does not
replace the mapping — `emplace` is a no-op on an occupied key: the map
(hence `find` on every index, and `size`) is unchanged. -/
theorem nudb_C10_insert_present (c : cache_t) (i : Nat) (b : bucket)
    (w : Blob) (c' : cache_t)
    (hp : c.find i = some w) (h : c.insert i b = some c') :
    c'.map = c.map ∧ c'.find i = some w ∧ c'.size = c.size ∧
      ∀ j, c'.find j = c.find j := by
  simp only [cache_t.insert] at h
  rcases ha : c.arena.alloc b.block_size with _ | ⟨off, a'⟩
  · rw [ha] at h
    exact absurd h (by simp)
  · rw [ha] at h
    simp only [Option.map_some', Option.some.injEq] at h
    subst h
    have hm : mapEmplace c.map i b.write = c.map :=
      mapEmplace_of_present c.map i b.write w hp
    refine ⟨hm, ?_, ?_, ?_⟩
    · show mapFind (mapEmplace c.map i b.write) i = some w
      rw [hm]
      exact hp
    · show (mapEmplace c.map i b.write).length = c.map.length
      rw [hm]
    · intro j
      show mapFind (mapEmplace c.map i b.write) j = mapFind c.map j
      rw [hm]

/-- Witness for C10: inserting under the already-mapped index 1 leaves
the single-entry map, its lookup and its size unchanged. -/
theorem nudb_C10_witness :
    (cache_t.mk 4 64 ⟨0, 16, [⟨8, 8⟩, ⟨8, 8⟩], []⟩ [(1, ⟨0, 5, []⟩)]).map =
      (cache_t.mk 4 64 ⟨0, 8, [⟨8, 8⟩], []⟩ [(1, ⟨0, 5, []⟩)]).map ∧
    (cache_t.mk 4 64 ⟨0, 16, [⟨8, 8⟩, ⟨8, 8⟩], []⟩ [(1, ⟨0, 5, []⟩)]).find 1 =
      some ⟨0, 5, []⟩ ∧
    (cache_t.mk 4 64 ⟨0, 16, [⟨8, 8⟩, ⟨8, 8⟩], []⟩ [(1, ⟨0, 5, []⟩)]).size =
      (cache_t.mk 4 64 ⟨0, 8, [⟨8, 8⟩], []⟩ [(1, ⟨0, 5, []⟩)]).size := by
  have h := nudb_C10_insert_present ⟨4, 64, ⟨0, 8, [⟨8, 8⟩], []⟩, [(1, ⟨0, 5, []⟩)]⟩ 1
    ⟨8, 9, [(1, 1, 1)]⟩ ⟨0, 5, []⟩
    ⟨4, 64, ⟨0, 16, [⟨8, 8⟩, ⟨8, 8⟩], []⟩, [(1, ⟨0, 5, []⟩)]⟩ (by decide) (by decide)
  exact ⟨h.1, h.2.1, h.2.2.1⟩

end NuDB
